import Mathlib

/-!
Verification development for the Ingestion-Engine repository.

This file gives a shallow embedding of the author-resolution module
(src/prompts.py, with the caller-side method computation from
src/scraper/extract.py) and of the segmentation/normalization module
(src/scraper/chunker.py), and settles the frozen claims about them.

Modeling conventions:
- Python strings are Lean `String`/`List Char`; texts are assumed to use
  LF (`\n`) as the only line terminator, matching everything the
  repository itself produces (all joins in the source use `'\n'.join`).
- Character classes of the `re` patterns are read in their ASCII range
  (`[A-Z]`, `[a-z]`, `\s`, `\w`), which is exact for the ASCII texts the
  patterns are aimed at.
- The regular expressions of the source are translated into explicit
  scanners.  Each scanner mirrors leftmost, non-overlapping matching with
  greedy repetition; for every pattern of the source the greedy maximal
  munch is equivalent to the backtracking semantics because each capture
  group sits at the end of its pattern and every repetition boundary is a
  whitespace/letter class switch (shrinking a maximal run can never make
  the next pattern item match).
- Loops whose cursor advances by a computed amount are written with a
  skip counter or a fuel argument so that every definition is structural
  (kernel reducible).  The fuel supplied is always at least the length of
  the scanned list while every iteration consumes at least one character,
  so the fuel is never exhausted.
- Network effects are stubbed by value: the one OpenAI call is modeled by
  an `Option String` parameter (`none` = transport error caught by the
  `except` branch, `some r` = completion text `r`).
-/

/-! ## Python string primitives -/

/-- Python `\s` and `str.strip` whitespace, ASCII range. -/
def isPyWs (c : Char) : Bool :=
  c = ' ' || c = '\t' || c = '\n' || c = '\r' || c = '\x0b' || c = '\x0c'

def isAsciiUpper (c : Char) : Bool := 'A' ≤ c && c ≤ 'Z'

def isAsciiLower (c : Char) : Bool := 'a' ≤ c && c ≤ 'z'

def isAsciiAlpha (c : Char) : Bool := isAsciiUpper c || isAsciiLower c

def isAsciiDigit (c : Char) : Bool := '0' ≤ c && c ≤ '9'

/-- Python regex `\w` over ASCII. -/
def isWordChar (c : Char) : Bool := isAsciiAlpha c || isAsciiDigit c || c = '_'

/-- ASCII lower-casing, as `str.lower` acts on ASCII text. -/
def lowerChar (c : Char) : Char :=
  if isAsciiUpper c then Char.ofNat (c.toNat + 32) else c

def pyLower (s : String) : String := ⟨s.data.map lowerChar⟩

def pyLStripL (l : List Char) : List Char := l.dropWhile isPyWs

def pyRStripL (l : List Char) : List Char := (l.reverse.dropWhile isPyWs).reverse

def pyStripL (l : List Char) : List Char := pyRStripL (pyLStripL l)

/-- Python `str.strip()`. -/
def pyStrip (s : String) : String := ⟨pyStripL s.data⟩

def pyLStrip (s : String) : String := ⟨pyLStripL s.data⟩

def pyRStrip (s : String) : String := ⟨pyRStripL s.data⟩

/-- Exact list-prefix test (used for `startswith` and fixed literals). -/
def hasPre : List Char → List Char → Bool
  | [], _ => true
  | _ :: _, [] => false
  | p :: ps, c :: cs => p = c && hasPre ps cs

/-- Case-insensitive prefix test (ASCII). -/
def hasPreCI (p l : List Char) : Bool := hasPre (p.map lowerChar) (l.map lowerChar)

/-- Substring containment, Python `needle in haystack`. -/
def containsSub (needle : List Char) : List Char → Bool
  | [] => hasPre needle []
  | c :: cs => hasPre needle (c :: cs) || containsSub needle cs

def strStarts (s pre : String) : Bool := hasPre pre.data s.data

/-- Python `str.split()` with no separator: split on whitespace runs,
dropping empty pieces. -/
def splitWsGo : List Char → List Char → List (List Char)
  | [], acc => if acc = [] then [] else [acc.reverse]
  | c :: cs, acc =>
    if isPyWs c then
      if acc = [] then splitWsGo cs [] else acc.reverse :: splitWsGo cs []
    else splitWsGo cs (c :: acc)

def pySplitWs (s : String) : List String := (splitWsGo s.data []).map (fun l => (⟨l⟩ : String))

/-- Split a character list at every `'\n'`, keeping all pieces
(Python `str.split('\n')`). -/
def splitOnNl : List Char → List (List Char)
  | [] => [[]]
  | c :: cs =>
    if c = '\n' then [] :: splitOnNl cs
    else
      match splitOnNl cs with
      | p :: ps => (c :: p) :: ps
      | [] => [[c]]

def joinNl : List (List Char) → List Char
  | [] => []
  | [p] => p
  | p :: q :: ps => p ++ '\n' :: joinNl (q :: ps)

/-- Python `str.splitlines()` for LF-terminated text: like
`split('\n')` but the empty piece after a trailing newline is dropped,
and the empty string yields no lines. -/
def pySplitLinesL (l : List Char) : List (List Char) :=
  let ps := splitOnNl l
  if ps.getLast? = some [] then ps.dropLast else ps

def pySplitLines (s : String) : List String :=
  (pySplitLinesL s.data).map (fun l => (⟨l⟩ : String))

/-- Python `'\n'.join`. -/
def joinLines (ls : List String) : String := ⟨joinNl (ls.map String.data)⟩

/-- Python `str.split(sep)` for a fixed non-empty separator: leftmost,
non-overlapping, keeping empty pieces.  The `skip` counter jumps over the
remainder of a just-matched separator so the recursion is structural. -/
def splitOnSubGo (sep : List Char) : List Char → Nat → List Char → List (List Char)
  | [], _, acc => [acc.reverse]
  | _ :: cs, Nat.succ k, acc => splitOnSubGo sep cs k acc
  | c :: cs, 0, acc =>
    if hasPre sep (c :: cs) then
      acc.reverse :: splitOnSubGo sep cs (sep.length - 1) []
    else splitOnSubGo sep cs 0 (c :: acc)

def pySplitOn (s sep : String) : List String :=
  (splitOnSubGo sep.data s.data 0 []).map (fun l => (⟨l⟩ : String))

/-! ## src/prompts.py — rule-based author extraction

The five `re.findall`/`re.match` patterns of `extract_author_from_text`
(prompts.py lines 60-118) are translated scanner by scanner.  Under
`re.IGNORECASE` the word atom `[A-Z][a-z]+` is any ASCII-letter word of
length at least two. -/

/-- Maximal ASCII-letter run of length `>= 2` (the word atom
`[A-Z][a-z]+` under IGNORECASE). -/
def word2 (l : List Char) : Option (List Char × List Char) :=
  let w := l.takeWhile isAsciiAlpha
  if 2 ≤ w.length then some (w, l.dropWhile isAsciiAlpha) else none

/-- Greedy `(?:\s[A-Z][a-z]+)+`-style extension: as many single
whitespace + word steps as possible.  Fuel is the length of the list. -/
def moreWords1 : Nat → List Char → List Char × List Char
  | 0, l => ([], l)
  | Nat.succ fuel, l =>
    match l with
    | c :: cs =>
      if isPyWs c then
        match word2 cs with
        | some (w, r) =>
          let (m, r2) := moreWords1 fuel r
          (c :: (w ++ m), r2)
        | none => ([], l)
      else ([], l)
    | [] => ([], l)

/-- The group core `[A-Z][a-z]+(?:\s[A-Z][a-z]+)+`: at least two words
separated by single whitespace characters, greedy. -/
def wordSeq2 (l : List Char) : Option (List Char × List Char) :=
  match word2 l with
  | none => none
  | some (w1, r1) =>
    match r1 with
    | c :: cs =>
      if isPyWs c then
        match word2 cs with
        | some (w2, r2) =>
          let (m, r3) := moreWords1 r2.length r2
          some (w1 ++ c :: (w2 ++ m), r3)
        | none => none
      else none
    | [] => none

/-- One `\s+and\s+[A-Z][a-z]+(?:\s[A-Z][a-z]+)+` clause of pattern 1. -/
def andClause (l : List Char) : Option (List Char × List Char) :=
  let ws1 := l.takeWhile isPyWs
  let r1 := l.dropWhile isPyWs
  if ws1 = [] then none
  else
    match r1 with
    | a :: n :: d :: rest =>
      if lowerChar a = 'a' && lowerChar n = 'n' && lowerChar d = 'd' then
        let ws2 := rest.takeWhile isPyWs
        let r2 := rest.dropWhile isPyWs
        if ws2 = [] then none
        else
          match wordSeq2 r2 with
          | some (g, r3) => some (ws1 ++ a :: n :: d :: (ws2 ++ g), r3)
          | none => none
      else none
    | _ => none

def andClauses : Nat → List Char → List Char × List Char
  | 0, l => ([], l)
  | Nat.succ fuel, l =>
    match andClause l with
    | some (g, r) =>
      let (m, r2) := andClauses fuel r
      (g ++ m, r2)
    | none => ([], l)

/-- Attempt pattern 1 `(?:By|by)\s+(...)` at the head of `l`; returns the
captured group and the total number of characters consumed. -/
def p1TryAt (l : List Char) : Option (List Char × Nat) :=
  match l with
  | b :: y :: rest =>
    if (b = 'B' || b = 'b') && (y = 'y' || y = 'Y') then
      let ws := rest.takeWhile isPyWs
      let r1 := rest.dropWhile isPyWs
      if ws = [] then none
      else
        match wordSeq2 r1 with
        | some (g, r2) =>
          let (m, _) := andClauses r2.length r2
          let grp := g ++ m
          some (grp, 2 + ws.length + grp.length)
        | none => none
    else none
  | _ => none

/-- Attempt pattern 2 `Author:\s*([A-Z][a-z]+(?:\s[A-Z][a-z]+)+)`. -/
def p2TryAt (l : List Char) : Option (List Char × Nat) :=
  if hasPreCI (("Author:").data) l then
    let rest := l.drop 7
    let ws := rest.takeWhile isPyWs
    let r1 := rest.dropWhile isPyWs
    match wordSeq2 r1 with
    | some (g, _) => some (g, 7 + ws.length + g.length)
    | none => none
  else none

/-- Attempt pattern 3 `Written by\s+([A-Z][a-z]+(?:\s[A-Z][a-z]+)+)`. -/
def p3TryAt (l : List Char) : Option (List Char × Nat) :=
  if hasPreCI (("Written by").data) l then
    let rest := l.drop 10
    let ws := rest.takeWhile isPyWs
    let r1 := rest.dropWhile isPyWs
    if ws = [] then none
    else
      match wordSeq2 r1 with
      | some (g, _) => some (g, 10 + ws.length + g.length)
      | none => none
  else none

/-- Greedy `(?:\s+[A-Z][a-z]+)*` extension of pattern 4 (multi-character
whitespace separators allowed). -/
def moreWordsMulti : Nat → List Char → List Char × List Char
  | 0, l => ([], l)
  | Nat.succ fuel, l =>
    let ws := l.takeWhile isPyWs
    let r1 := l.dropWhile isPyWs
    if ws = [] then ([], l)
    else
      match word2 r1 with
      | some (w, r2) =>
        let (m, r3) := moreWordsMulti fuel r2
        (ws ++ w ++ m, r3)
      | none => ([], l)

/-- Attempt pattern 4 `\bby\s+([A-Z][a-z]+(?:\s+[A-Z][a-z]+)*)`; the word
boundary is checked against the previous character. -/
def p4TryAt (prev : Option Char) (l : List Char) : Option (List Char × Nat) :=
  if (match prev with | some p => isWordChar p | none => false) then none
  else
    match l with
    | b :: y :: rest =>
      if (b = 'B' || b = 'b') && (y = 'y' || y = 'Y') then
        let ws := rest.takeWhile isPyWs
        let r1 := rest.dropWhile isPyWs
        if ws = [] then none
        else
          match word2 r1 with
          | some (w, r2) =>
            let (m, _) := moreWordsMulti r2.length r2
            let grp := w ++ m
            some (grp, 2 + ws.length + grp.length)
          | none => none
      else none
    | _ => none

/-- Leftmost non-overlapping scan (re.findall): on a match, emit the
group and skip past the consumed characters. -/
def scanGo (tryAt : List Char → Option (List Char × Nat)) :
    List Char → Nat → List (List Char)
  | [], _ => []
  | _ :: cs, Nat.succ k => scanGo tryAt cs k
  | c :: cs, 0 =>
    match tryAt (c :: cs) with
    | some (g, n) => g :: scanGo tryAt cs (n - 1)
    | none => scanGo tryAt cs 0

/-- Scan that also tracks the previous character (for `\b`). -/
def scanPrevGo (tryAt : Option Char → List Char → Option (List Char × Nat)) :
    List Char → Option Char → Nat → List (List Char)
  | [], _, _ => []
  | c :: cs, _, Nat.succ k => scanPrevGo tryAt cs (some c) k
  | c :: cs, prev, 0 =>
    match tryAt prev (c :: cs) with
    | some (g, n) => g :: scanPrevGo tryAt cs (some c) (n - 1)
    | none => scanPrevGo tryAt cs (some c) 0

/-- Pattern 5 word shape `[A-Z][a-z]+` (case-sensitive). -/
def properWord (w : List Char) : Bool :=
  match w with
  | c :: rest => isAsciiUpper c && rest ≠ [] && rest.all isAsciiLower
  | [] => false

/-- Full-line match of `^[A-Z][a-z]+(?:\s+[A-Z][a-z]+)*$` on a stripped
line: every whitespace-run-separated word is proper case. -/
def p5m1 (l : List Char) : Bool :=
  let ws := splitWsGo l []
  ws ≠ [] && ws.all properWord

/-- Full-line match of `^[A-Z .\-]{4,}$`. -/
def p5m2 (l : List Char) : Bool :=
  4 ≤ l.length && l.all (fun c => isAsciiUpper c || c = ' ' || c = '.' || c = '-')

def p5Excluded : List String :=
  ["beyond cracking", "coding interview", "technical interview",
   "careercup llc", "palo alto ca", "copyright", "all rights reserved",
   "introduction", "preface", "table of contents"]

/-- Pattern 5 (prompts.py lines 88-97): standalone lines that look like
names, 2-4 words, excluding a fixed phrase list. -/
def p5Candidates (text : List Char) : List (List Char) :=
  (splitOnNl text).filterMap (fun line =>
    let l := pyStripL line
    let wc := (splitWsGo l []).length
    if (p5m1 l || p5m2 l) && (2 ≤ wc && wc ≤ 4)
        && !(p5Excluded.contains (⟨l.map lowerChar⟩ : String)) then some l
    else none)

/-- One `\s+and\s+` separator of `re.split` at the head of `l`. -/
def andSepAt (l : List Char) : Option Nat :=
  let ws1 := l.takeWhile isPyWs
  let r1 := l.dropWhile isPyWs
  if ws1 = [] then none
  else
    match r1 with
    | a :: n :: d :: rest =>
      if lowerChar a = 'a' && lowerChar n = 'n' && lowerChar d = 'd' then
        let ws2 := rest.takeWhile isPyWs
        if ws2 = [] then none else some (ws1.length + 3 + ws2.length)
      else none
    | _ => none

/-- Python `re.split(r'\s+and\s+', m, re.IGNORECASE)`. -/
def splitAndGo : List Char → Nat → List Char → List (List Char)
  | [], _, acc => [acc.reverse]
  | _ :: cs, Nat.succ k, acc => splitAndGo cs k acc
  | c :: cs, 0, acc =>
    match andSepAt (c :: cs) with
    | some n => acc.reverse :: splitAndGo cs (n - 1) []
    | none => splitAndGo cs 0 (c :: acc)

def authorCommonWords : List String := ["by", "author", "written", "co-author", "contributors"]

/-- Cleanup loop of `extract_author_from_text` (prompts.py lines 100-111):
strip, drop short or common entries, deduplicate case-insensitively. -/
def dedupAuthors : List (List Char) → List (List Char) → List (List Char)
  | [], acc => acc.reverse
  | a :: rest, acc =>
    let a := pyStripL a
    if a.length < 3 then dedupAuthors rest acc
    else if authorCommonWords.contains (⟨a.map lowerChar⟩ : String) then dedupAuthors rest acc
    else if acc.any (fun e => e.map lowerChar = a.map lowerChar) then dedupAuthors rest acc
    else dedupAuthors rest (a :: acc)

def pyIsUpperL (l : List Char) : Bool :=
  l.any isAsciiAlpha && l.all (fun c => !isAsciiAlpha c || isAsciiUpper c)

def pyIsLowerL (l : List Char) : Bool :=
  l.any isAsciiAlpha && l.all (fun c => !isAsciiAlpha c || isAsciiLower c)

/-- Characters allowed by the validator class `[^a-zA-Z\s\.\'-]`
(letters, whitespace, dot, apostrophe, hyphen). -/
def nameCharOk (c : Char) : Bool :=
  isAsciiAlpha c || isPyWs c || c = '.' || c = Char.ofNat 39 || c = '-'

/-- prompts.py lines 168-190. -/
def is_valid_human_name (name : String) : Bool :=
  let n := pyStripL name.data
  if n.length < 5 then false
  else if pyIsUpperL (n.filter (fun c => c ≠ ' ')) && (splitWsGo n []).length ≤ 3 then false
  else if n.any (fun c => !nameCharOk c) then false
  else
    let parts := splitWsGo n []
    if parts.length < 2 then false
    else parts.all (fun p =>
      match p with
      | [] => true
      | [_] => true
      | c :: rest => isAsciiUpper c && pyIsLowerL rest)

/-- prompts.py lines 192-204. -/
def clean_and_validate_authors (authors : List String) : List String :=
  authors.filterMap (fun a =>
    let a := pyStrip a
    if is_valid_human_name a then some a else none)

def joinCommaSp : List String → String
  | [] => ⟨[]⟩
  | [a] => a
  | a :: b :: rest => a ++ ", " ++ joinCommaSp (b :: rest)

/-- prompts.py lines 60-118: the rule-based cascade. -/
def extract_author_from_text (text : String) : Option String :=
  let t := text.data
  let p1raw := scanGo p1TryAt t 0
  let p1authors := (p1raw.map (fun m =>
    if containsSub ((" and ").data) (m.map lowerChar) then splitAndGo m 0 [] else [m])).flatten
  let p2authors := scanGo p2TryAt t 0
  let p3authors := scanGo p3TryAt t 0
  let p4authors := scanPrevGo p4TryAt t none 0
  let p5authors := p5Candidates t
  let authors := p1authors ++ p2authors ++ p3authors ++ p4authors ++ p5authors
  let uniq := dedupAuthors authors []
  let valid := clean_and_validate_authors (uniq.map (fun l => (⟨l⟩ : String)))
  if valid = [] then none else some (joinCommaSp valid)

/-- prompts.py lines 122-144, LLM stubbed by value: `none` models the
caught transport error (returns None), `some r` a completion whose
content is stripped before being returned.  Title, mode and prompt shape
only the outbound request and cannot influence the stubbed response. -/
def extract_author_using_openai (llm : Option String) : Option String :=
  match llm with
  | none => none
  | some r => some (pyStrip r)

/-- prompts.py lines 148-166: rule-based pass first, OpenAI fallback only
when it yields nothing.  The preview truncation of the source only edits
the outbound prompt. -/
def get_author (llm : Option String) (content_preview : String) : Option String :=
  match extract_author_from_text content_preview with
  | some a => some a
  | none => extract_author_using_openai llm

/-- Caller-side method labeling, extract.py lines 266 and 494:
`f"rule_based+openai_{author_mode}" if author_guess else "fallback"`.
Python falsiness: both `None` and the empty string count as no author. -/
def author_method (mode : String) (author_guess : Option String) : String :=
  match author_guess with
  | none => "fallback"
  | some a => if a = ("") then "fallback" else ("rule_based+openai_") ++ mode

/-! ## Claims C1-C3 (author resolution) -/

/-- Claim C1, counterexample: for the preview consisting of the byline
line `By Jane Smith`, author resolution does not return the name
`Jane Smith`: pattern 5 of the cascade also matches the whole line,
which the validator accepts, so the comma-joined result is
`Jane Smith, By Jane Smith`. -/
theorem C1_claim_counterexample :
    get_author none ("By Jane Smith") ≠ some ("Jane Smith") := by decide

/-- Claim C1, amended: for the example preview `By Jane Smith`,
resolution succeeds through the rule-based pass alone — the result does
not depend on the stubbed LLM response, so the external fallback is not
invoked — and returns the comma-joined validated candidate list
`Jane Smith, By Jane Smith`, which contains `Jane Smith` but also the
raw byline; the caller labels the result `rule_based+openai_balanced`
(the code produces no bare `rule_based` label). -/
theorem C1_byline_rule_based_only (llm : Option String) :
    get_author llm ("By Jane Smith") = some ("Jane Smith, By Jane Smith") ∧
    author_method ("balanced") (get_author llm ("By Jane Smith")) =
      ("rule_based+openai_balanced") := by
  constructor <;> rfl

/-- Claim C2 (code bug): with no byline in the preview and the stubbed
LLM responding with the literal `Unknown`, `get_author` returns
`Unknown` as the author name and the caller records the non-fallback
method label.  The `Unknown`-to-null handling required by the spec
exists only in `get_author_via_openai` (extract.py lines 597-661), a
function no call path reaches. -/
theorem C2_unknown_passthrough :
    get_author (some ("Unknown")) ("") = some ("Unknown") ∧
    author_method ("balanced") (get_author (some ("Unknown")) ("")) =
      ("rule_based+openai_balanced") := by
  constructor <;> rfl

/-- Claim C3: the human-name validator accepts `Aline Lerner` and
rejects each of `J. Doe`, `NASA JPL` and `C C I`. -/
theorem C3_name_validator_cases :
    is_valid_human_name ("Aline Lerner") = true ∧
    is_valid_human_name ("J. Doe") = false ∧
    is_valid_human_name ("NASA JPL") = false ∧
    is_valid_human_name ("C C I") = false :=
  ⟨rfl, rfl, rfl, rfl⟩

/-! ## src/scraper/chunker.py — code-line classifier and fence normalizer -/

inductive Mode
  | web
  | pdf
deriving DecidableEq

/-- Boilerplate phrases of the web classifier (chunker.py lines 32-40). -/
def webSkipPhrases : List String :=
  ["quickstart", "navigation", "admin portal", "create a dashboard",
   "learn more", "search", "ask ai", "copy", "to create a read-only user",
   "postgresql", "big query", "snowflake", "mysql", "do the following",
   "grant connect privileges", "grant usage on the schema", "grant select privileges",
   "the connection string", "go to", "if you\x27re using", "for more information",
   "the quill platform", "create a cleaned schema", "next steps", "once you have",
   "check out our guides", "build your first dashboard", "powered by", "on this page"]

def pdfStatementStarts : List String :=
  ["def ", "class ", "CREATE ", "GRANT ", "SELECT ", "INSERT ", "UPDATE ",
   "DELETE ", "DROP ", "ALTER ", "USE ", "SHOW ", "DESCRIBE "]

def sqlKeywords : List String :=
  ["CREATE", "GRANT", "SELECT", "INSERT", "UPDATE", "DELETE", "DROP",
   "ALTER", "USE", "SHOW", "DESCRIBE"]

/-- Character class of the web test `[;{}<>=()'"`\[\]#@$]`; brace,
apostrophe and backtick are written numerically. -/
def codePunct : List Char :=
  [';', Char.ofNat 123, Char.ofNat 125, '<', '>', '=', '(', ')',
   Char.ofNat 39, '"', Char.ofNat 96, '[', ']', '#', '@', '$']

def twoSpaces : List Char := [' ', ' ']

/-- Word-boundary occurrence of `kw` (case-insensitive) somewhere in the
line (`\bKW\b`). -/
def kwSearchGo (kw : List Char) : Option Char → List Char → Bool
  | _, [] => false
  | prev, c :: cs =>
    ((match prev with | some p => !isWordChar p | none => true) &&
      hasPreCI kw (c :: cs) &&
      (match (c :: cs).drop kw.length with
       | [] => true
       | d :: _ => !isWordChar d)) ||
    kwSearchGo kw (some c) cs

def hasSqlKeyword (l : List Char) : Bool :=
  sqlKeywords.any (fun kw => kwSearchGo kw.data none l)

/-- Rest of the list after the first occurrence of `needle`. -/
def dropToSub (needle : List Char) : List Char → Option (List Char)
  | [] => if hasPre needle [] then some [] else none
  | c :: cs =>
    if hasPre needle (c :: cs) then some ((c :: cs).drop needle.length)
    else dropToSub needle cs

/-- Web test `re.search(r'://.*@.*:', line)`. -/
def hasCredUrl (l : List Char) : Bool :=
  match dropToSub (("://").data) l with
  | none => false
  | some rest =>
    match rest.dropWhile (fun c => c ≠ '@') with
    | [] => false
    | _ :: tl => tl.any (fun c => c = ':')

/-- Web test `re.search(r'[;{}<>=()\'"`\[\]#@$]|  ', line)`. -/
def hasCodePunct (l : List Char) : Bool :=
  l.any (fun c => codePunct.contains c) || containsSub twoSpaces l

/-- Leading whitespace run of at least `n` characters (`^\s{n,}`). -/
def leadingWsAtLeast (n : Nat) (l : List Char) : Bool :=
  n ≤ (l.takeWhile isPyWs).length

/-- chunker.py lines 18-52. -/
def is_code_line (line : String) (mode : Mode) : Bool :=
  if (pyStrip line).data.length = 0 then false
  else
    match mode with
    | .pdf =>
      let st := pyStrip line
      if pdfStatementStarts.any (fun p => hasPreCI p.data st.data) then true
      else if leadingWsAtLeast 4 line.data then true
      else if (match st.data with | c :: _ => c = '$' || c = '#' | [] => false) then true
      else false
    | .web =>
      let ll := pyStrip (pyLower line)
      if webSkipPhrases.any (fun p => containsSub p.data ll.data) then false
      else if hasCodePunct line.data then true
      else if leadingWsAtLeast 2 line.data then true
      else if (let st := (pyStrip line).data
               hasPre ((">>>").data) st || hasPre (("$").data) st ||
               hasPre (("--").data) st || hasPre (("|").data) st) then true
      else if hasSqlKeyword line.data then true
      else if hasCredUrl line.data then true
      else false

/-- Explicit fence delimiter test `line.strip().startswith("```")`. -/
def isFenceLine (line : String) : Bool := hasPre (("```").data) (pyStrip line).data

/-- Flush of the pending code buffer: blank lines removed, non-empty
remainder wrapped in a fence pair (chunker.py lines 62-69, 79-85, 87-92). -/
def flushBuf (buf : List String) : List String :=
  let cleaned := buf.filter (fun b => !(pyStrip b == ("")))
  if cleaned = [] then [] else ("```") :: cleaned ++ [("```")]

/-- Line-level state machine of `auto_wrap_code_blocks` (chunker.py
lines 54-93): `buf` holds the pending run of code-like lines, `wrapped`
the inside-explicit-fence flag toggled by fence delimiter lines. -/
def awGo (mode : Mode) : List String → List String → Bool → List String
  | [], buf, _ => flushBuf buf
  | line :: ls, buf, wrapped =>
    if isFenceLine line then flushBuf buf ++ line :: awGo mode ls [] (!wrapped)
    else if wrapped then line :: awGo mode ls buf wrapped
    else if is_code_line line mode then awGo mode ls (buf ++ [line]) wrapped
    else flushBuf buf ++ line :: awGo mode ls [] wrapped

def autoWrapLines (mode : Mode) (lines : List String) : List String :=
  awGo mode lines [] false

/-- chunker.py lines 54-93 at string level (splitlines, process, join). -/
def auto_wrap_code_blocks (text : String) (mode : Mode) : String :=
  joinLines (autoWrapLines mode (pySplitLines text))

/-- Fence state after scanning `lines`: each fence delimiter line
toggles the flag. -/
def fenceStateAfter : List String → Bool → Bool
  | [], w => w
  | line :: ls, w => fenceStateAfter ls (if isFenceLine line then !w else w)

/-- Every code-like line of `lines` lies inside explicit fence
delimiters, starting from fence state `w` (fence delimiter lines toggle
the state and are themselves exempt). -/
def allCodeInsideFences (mode : Mode) : List String → Bool → Bool
  | [], _ => true
  | line :: ls, w =>
    if isFenceLine line then allCodeInsideFences mode ls (!w)
    else if w then allCodeInsideFences mode ls w
    else !is_code_line line mode && allCodeInsideFences mode ls w

theorem aci_append (mode : Mode) :
    ∀ (xs ys : List String) (w : Bool),
      allCodeInsideFences mode (xs ++ ys) w =
        (allCodeInsideFences mode xs w &&
          allCodeInsideFences mode ys (fenceStateAfter xs w)) := by
  intro xs
  induction xs with
  | nil => intro ys w; simp [allCodeInsideFences, fenceStateAfter]
  | cons x xs ih =>
    intro ys w
    by_cases hf : isFenceLine x = true
    · simp [allCodeInsideFences, fenceStateAfter, hf, ih]
    · simp only [Bool.not_eq_true] at hf
      cases w with
      | true => simp [allCodeInsideFences, fenceStateAfter, hf, ih]
      | false =>
        cases hc : is_code_line x mode <;>
          simp [allCodeInsideFences, fenceStateAfter, hf, hc, ih]

theorem fsa_append :
    ∀ (xs ys : List String) (w : Bool),
      fenceStateAfter (xs ++ ys) w = fenceStateAfter ys (fenceStateAfter xs w) := by
  intro xs
  induction xs with
  | nil => intro ys w; rfl
  | cons x xs ih => intro ys w; simp [fenceStateAfter, ih]

theorem fsa_no_fence :
    ∀ (cs : List String), (∀ b ∈ cs, isFenceLine b = false) →
      ∀ w, fenceStateAfter cs w = w := by
  intro cs
  induction cs with
  | nil => intro _ w; rfl
  | cons c cs ih =>
    intro h w
    have hc : isFenceLine c = false := h c (List.mem_cons_self c cs)
    simp [fenceStateAfter, hc, ih (fun b hb => h b (List.mem_cons_of_mem c hb))]

theorem aci_nonfence_true (mode : Mode) :
    ∀ (cs : List String), (∀ b ∈ cs, isFenceLine b = false) →
      allCodeInsideFences mode cs true = true := by
  intro cs
  induction cs with
  | nil => intro _; rfl
  | cons c cs ih =>
    intro h
    have hc : isFenceLine c = false := h c (List.mem_cons_self c cs)
    simpa [allCodeInsideFences, hc] using ih (fun b hb => h b (List.mem_cons_of_mem c hb))

theorem aci_flush (mode : Mode) (buf : List String)
    (hb : ∀ b ∈ buf, isFenceLine b = false) :
    allCodeInsideFences mode (flushBuf buf) false = true ∧
    ∀ w, fenceStateAfter (flushBuf buf) w = w := by
  unfold flushBuf
  by_cases hc : buf.filter (fun b => !(pyStrip b == (""))) = []
  · simp [hc, allCodeInsideFences, fenceStateAfter]
  · have hcl : ∀ b ∈ buf.filter (fun b => !(pyStrip b == (""))), isFenceLine b = false :=
      fun b hbm => hb b (List.mem_of_mem_filter hbm)
    have hfence : isFenceLine ("```") = true := rfl
    constructor
    · simp only [if_neg hc, allCodeInsideFences, hfence, if_pos rfl, Bool.not_false,
        aci_append]
      simp [aci_nonfence_true mode _ hcl, fsa_no_fence _ hcl, allCodeInsideFences, hfence]
    · intro w
      simp only [if_neg hc, fenceStateAfter, hfence, fsa_append]
      simp [fsa_no_fence _ hcl, fenceStateAfter, hfence]

theorem awGo_id_of_inside (mode : Mode) :
    ∀ (ls : List String) (w : Bool), allCodeInsideFences mode ls w = true →
      awGo mode ls [] w = ls := by
  intro ls
  induction ls with
  | nil => intro w _; rfl
  | cons line ls ih =>
    intro w h
    by_cases hf : isFenceLine line = true
    · have h2 : allCodeInsideFences mode ls (!w) = true := by
        simpa [allCodeInsideFences, hf] using h
      simp [awGo, hf, flushBuf, ih _ h2]
    · simp only [Bool.not_eq_true] at hf
      cases w with
      | true =>
        have h2 : allCodeInsideFences mode ls true = true := by
          simpa [allCodeInsideFences, hf] using h
        simp [awGo, hf, ih _ h2]
      | false =>
        have h2 : is_code_line line mode = false ∧
            allCodeInsideFences mode ls false = true := by
          simpa [allCodeInsideFences, hf] using h
        simp [awGo, hf, h2.1, flushBuf, ih _ h2.2]

theorem aci_awGo (mode : Mode) :
    ∀ (ls buf : List String) (w : Bool),
      (∀ b ∈ buf, isFenceLine b = false) →
      (w = true → buf = []) →
      allCodeInsideFences mode (awGo mode ls buf w) w = true := by
  intro ls
  induction ls with
  | nil =>
    intro buf w hb hw
    cases w with
    | false => exact (aci_flush mode buf hb).1
    | true => simp [awGo, hw rfl, flushBuf, allCodeInsideFences]
  | cons line ls ih =>
    intro buf w hb hw
    have hnil : ∀ b ∈ ([] : List String), isFenceLine b = false := by
      intro b hb2; cases hb2
    cases w with
    | true =>
      have hbe : buf = [] := hw rfl
      subst hbe
      by_cases hf : isFenceLine line = true
      · have heq : awGo mode (line :: ls) [] true = line :: awGo mode ls [] false := by
          simp [awGo, hf, flushBuf]
        rw [heq]
        have h2 : allCodeInsideFences mode (line :: awGo mode ls [] false) true
            = allCodeInsideFences mode (awGo mode ls [] false) false := by
          simp [allCodeInsideFences, hf]
        rw [h2]
        exact ih [] false hnil (by intro hco; cases hco)
      · simp only [Bool.not_eq_true] at hf
        have heq : awGo mode (line :: ls) [] true = line :: awGo mode ls [] true := by
          simp [awGo, hf]
        rw [heq]
        have h2 : allCodeInsideFences mode (line :: awGo mode ls [] true) true
            = allCodeInsideFences mode (awGo mode ls [] true) true := by
          simp [allCodeInsideFences, hf]
        rw [h2]
        exact ih [] true hnil (fun _ => rfl)
    | false =>
      have hflush := aci_flush mode buf hb
      by_cases hf : isFenceLine line = true
      · have heq : awGo mode (line :: ls) buf false
            = flushBuf buf ++ line :: awGo mode ls [] true := by
          simp [awGo, hf]
        rw [heq, aci_append, hflush.1, hflush.2 false]
        have h2 : allCodeInsideFences mode (line :: awGo mode ls [] true) false
            = allCodeInsideFences mode (awGo mode ls [] true) true := by
          simp [allCodeInsideFences, hf]
        simp only [Bool.true_and]
        rw [h2]
        exact ih [] true hnil (fun _ => rfl)
      · simp only [Bool.not_eq_true] at hf
        cases hcl : is_code_line line mode with
        | true =>
          have heq : awGo mode (line :: ls) buf false
              = awGo mode ls (buf ++ [line]) false := by
            simp [awGo, hf, hcl]
          rw [heq]
          have hb2 : ∀ b ∈ buf ++ [line], isFenceLine b = false := by
            intro b hbm
            rcases List.mem_append.mp hbm with h1 | h2
            · exact hb b h1
            · rw [List.mem_singleton.mp h2]; exact hf
          exact ih (buf ++ [line]) false hb2 (by intro hco; cases hco)
        | false =>
          have heq : awGo mode (line :: ls) buf false
              = flushBuf buf ++ line :: awGo mode ls [] false := by
            simp [awGo, hf, hcl]
          rw [heq, aci_append, hflush.1, hflush.2 false]
          have h2 : allCodeInsideFences mode (line :: awGo mode ls [] false) false
              = (!is_code_line line mode &&
                  allCodeInsideFences mode (awGo mode ls [] false) false) := by
            simp [allCodeInsideFences, hf]
          simp only [Bool.true_and]
          rw [h2, hcl]
          simp only [Bool.not_false, Bool.true_and]
          exact ih [] false hnil (by intro hco; cases hco)

/-- Claim C5, amended: at line level the normalizer is a no-op on
already-fenced input and its own output is always already fenced, so no
fenced block is ever wrapped in a second fence.  Conjunct 1: every
code-like line of the output lies inside fence delimiters; conjunct 2:
when every code-like input line lies inside fence delimiters, the output
line sequence equals the input line sequence. -/
theorem C5_normalizer_line_idempotence (mode : Mode) (lines : List String) :
    allCodeInsideFences mode (autoWrapLines mode lines) false = true ∧
    (allCodeInsideFences mode lines false = true →
      autoWrapLines mode lines = lines) := by
  constructor
  · exact aci_awGo mode lines [] false (by intro b hb; cases hb)
      (by intro hcontra; cases hcontra)
  · intro h
    exact awGo_id_of_inside mode lines false h

/-- Witness for C5 on a concrete fenced input. -/
theorem C5_normalizer_line_idempotence_witness :
    allCodeInsideFences Mode.web [("```"), ("x; y;"), ("```")] false = true ∧
    autoWrapLines Mode.web [("```"), ("x; y;"), ("```")] =
      [("```"), ("x; y;"), ("```")] :=
  ⟨rfl, (C5_normalizer_line_idempotence Mode.web [("```"), ("x; y;"), ("```")]).2 rfl⟩

/-- Claim C5, counterexample at string level: the text `x\n` has every
code-like line inside fences (vacuously), yet the normalizer does not
return it unchanged — rebuilding the text from its lines drops the
trailing newline. -/
theorem C5_trailing_newline_counterexample :
    allCodeInsideFences Mode.web (pySplitLines ("x\n")) false = true ∧
    auto_wrap_code_blocks ("x\n") Mode.web = ("x") ∧
    auto_wrap_code_blocks ("x\n") Mode.web ≠ ("x\n") :=
  ⟨rfl, rfl, by decide⟩

/-! ## src/scraper/chunker.py — markdown postprocessor -/

/-- Bullet rewriting of chunker.py lines 167-168: the outer test also
admits `\x01`-`\x03` leads, but the inner substitution rewrites only
`-`, `•` and `*` leads, so the net effect is exactly the inner
substitution `^(-|•|*)\s+` to `* `. -/
def bulletSub (l : List Char) : List Char :=
  match l with
  | c :: rest =>
    if (c = '-' || c = '*' || c = '•')
        && (match rest with | d :: _ => isPyWs d | [] => false) then
      '*' :: ' ' :: rest.dropWhile isPyWs
    else l
  | [] => l

/-- One `https?://\S+` token at the head of `l`: scheme literal followed
by a non-empty maximal non-whitespace run. -/
def httpTokenAt (l : List Char) : Option (List Char) :=
  if hasPre (("https://").data) l then
    let rest := l.drop 8
    let tok := rest.takeWhile (fun c => !isPyWs c)
    if tok = [] then none else some ((("https://").data) ++ tok)
  else if hasPre (("http://").data) l then
    let rest := l.drop 7
    let tok := rest.takeWhile (fun c => !isPyWs c)
    if tok = [] then none else some ((("http://").data) ++ tok)
  else none

/-- Python `re.sub(r'(https?://\S+)', r'[\1](\1)', l)`: leftmost,
non-overlapping, replacement text not rescanned. -/
def subHttpGo : List Char → Nat → List Char
  | [], _ => []
  | c :: cs, Nat.succ k => c :: subHttpGo cs k
  | c :: cs, 0 =>
    match httpTokenAt (c :: cs) with
    | some tok =>
      ('[' :: tok ++ ']' :: '(' :: tok ++ [')']) ++ subHttpGo cs (tok.length - 1)
    | none => c :: subHttpGo cs 0

def wwwTokenAt (l : List Char) : Option (List Char) :=
  if hasPre (("www.").data) l then
    let rest := l.drop 4
    let tok := rest.takeWhile (fun c => !isPyWs c)
    if tok = [] then none else some ((("www.").data) ++ tok)
  else none

/-- Python `re.sub(r'\b(www\.[^\s]+)', r'[\1](http://\1)', l)`; the
previous character is tracked for the word boundary. -/
def subWwwGo : Option Char → List Char → Nat → List Char
  | _, [], _ => []
  | _, c :: cs, Nat.succ k => c :: subWwwGo (some c) cs k
  | prev, c :: cs, 0 =>
    if (match prev with | some p => !isWordChar p | none => true) then
      match wwwTokenAt (c :: cs) with
      | some tok =>
        ('[' :: tok ++ ']' :: '(' :: ((("http://").data) ++ tok) ++ [')']) ++
          subWwwGo (some c) cs (tok.length - 1)
      | none => c :: subWwwGo (some c) cs 0
    else c :: subWwwGo (some c) cs 0

/-- Normalization of one non-code line (chunker.py lines 166-170),
applied to the stripped line. -/
def procLine (l : String) : String :=
  ⟨subWwwGo none (subHttpGo (bulletSub l.data) 0) 0⟩

/-- Fence-aware loop of `postprocess_markdown` (chunker.py lines
152-171) without the final unclosed-fence append: an opening fence
emits the raw line, a closing fence emits a bare fence, lines inside
fences pass verbatim, and other lines are stripped and normalized. -/
def ppEmit : List String → Bool → List String
  | [], _ => []
  | line :: ls, inCode =>
    if isFenceLine line then
      if inCode then ("```") :: ppEmit ls false
      else line :: ppEmit ls true
    else if inCode then line :: ppEmit ls inCode
    else procLine (pyStrip line) :: ppEmit ls inCode

def ppStateAfter : List String → Bool → Bool
  | [], b => b
  | line :: ls, b =>
    if isFenceLine line then ppStateAfter ls (!b) else ppStateAfter ls b

/-- chunker.py lines 152-173: the full line pass, closing a fence left
open at the end. -/
def ppLines (lines : List String) : List String :=
  ppEmit lines false ++ (if ppStateAfter lines false then [("```")] else [])

/-- Blank collapsing (chunker.py lines 176-185): a whitespace-only line
becomes an empty line, runs of them collapse to a single one. -/
def collapseBlanks : List String → Bool → List String
  | [], _ => []
  | l :: ls, lastBlank =>
    if pyStrip l == ("") then
      (if lastBlank then collapseBlanks ls true else ("") :: collapseBlanks ls true)
    else l :: collapseBlanks ls false

/-- Python `re.sub(r'\n{3,}', '\n\n', s)`. -/
def collapseNlRunsGo : List Char → Nat → List Char
  | [], pending => List.replicate (min pending 2) '\n'
  | c :: cs, pending =>
    if c = '\n' then collapseNlRunsGo cs (pending + 1)
    else List.replicate (min pending 2) '\n' ++ c :: collapseNlRunsGo cs 0

/-- Python `re.sub(r' +', ' ', s)`. -/
def collapseSpaceRunsGo : List Char → Bool → List Char
  | [], pending => if pending then [' '] else []
  | c :: cs, pending =>
    if c = ' ' then collapseSpaceRunsGo cs true
    else
      (if pending then ' ' :: c :: collapseSpaceRunsGo cs false
       else c :: collapseSpaceRunsGo cs false)

/-- chunker.py lines 141-194 (the two debug prints do not affect the
result).  Fence normalization, the fence-aware line pass, blank
collapsing, join, strip, then the two whole-text cleanups. -/
def postprocess_markdown (text : String) (mode : Mode) : String :=
  let t1 := auto_wrap_code_blocks text mode
  let processed := ppLines (pySplitLines t1)
  let out := collapseBlanks processed false
  let r := pyStripL (joinLines out).data
  ⟨collapseSpaceRunsGo (collapseNlRunsGo r 0) false⟩

theorem ppEmit_append :
    ∀ (xs ys : List String) (b : Bool),
      ppEmit (xs ++ ys) b = ppEmit xs b ++ ppEmit ys (ppStateAfter xs b) := by
  intro xs
  induction xs with
  | nil => intro ys b; rfl
  | cons x xs ih =>
    intro ys b
    by_cases hf : isFenceLine x = true
    · cases b <;> simp [ppEmit, ppStateAfter, hf, ih]
    · simp only [Bool.not_eq_true] at hf
      cases b <;> simp [ppEmit, ppStateAfter, hf, ih]

/-- Claim C6, amended: in the fence-aware line pass a line lying inside
a code fence (fence state true, not itself a fence delimiter) is emitted
verbatim, in place — no bullet rewriting, link wrapping or stripping is
applied to it.  The subsequent whole-text cleanup passes of
`postprocess_markdown` are fence-blind (see the counterexample). -/
theorem C6_fenced_line_verbatim_in_pass (xs : List String) (l : String) (ys : List String)
    (hx : ppStateAfter xs false = true) (hl : isFenceLine l = false) :
    ppEmit (xs ++ l :: ys) false = ppEmit xs false ++ l :: ppEmit ys true := by
  rw [ppEmit_append, hx]
  simp [ppEmit, hl]

/-- Witness for C6 on a concrete fenced input. -/
theorem C6_fenced_line_verbatim_in_pass_witness :
    ppStateAfter [("```")] false = true ∧
    ppEmit ([("```")] ++ ("x;  y") :: [("```")]) false =
      ppEmit [("```")] false ++ ("x;  y") :: ppEmit [("```")] true :=
  ⟨rfl, C6_fenced_line_verbatim_in_pass [("```")] ("x;  y") [("```")] rfl rfl⟩

/-- Claim C6, counterexample: the fenced line `x;  y` does not appear
verbatim in the postprocessor output — the final whitespace cleanup
collapses the double space inside the fence. -/
theorem C6_space_collapse_counterexample :
    postprocess_markdown ("```\nx;  y\n```") Mode.web = ("```\nx; y\n```") ∧
    (pySplitLines (postprocess_markdown ("```\nx;  y\n```") Mode.web)).contains
      ("x;  y") = false :=
  ⟨rfl, rfl⟩

/-! ## src/scraper/chunker.py — heading segmentation and documents -/

/-- ATX heading line: the web pattern `(^|\n)(#{1,6} .*)` matches
exactly at line starts whose line begins with one to six `#` followed by
a space (`.*` then runs to the end of the line; seven or more `#`
cannot backtrack into a match). -/
def isHeadingLine (line : String) : Bool :=
  let r := (line.data.takeWhile (fun c => c = '#')).length
  1 ≤ r && r ≤ 6 && (match line.data.drop r with | c :: _ => c = ' ' | [] => false)

/-- Grouping of lines into heading-delimited spans; `cur` is the current
span, reversed.  A new span opens at every heading line. -/
def groupGo (cur : List String) : List String → List (List String)
  | [] => [cur.reverse]
  | l :: ls =>
    if isHeadingLine l then cur.reverse :: groupGo [l] ls
    else groupGo (l :: cur) ls

/-- Heading-delimited spans (chunker.py lines 330-335): the `finditer`
match starts are exactly the heading line starts, and each slice
`content[start:end]` runs from one heading line to just before the
next, so the slices are the groups below; lines before the first
heading belong to no slice. -/
def headingGroups (lines : List String) : List (List String) :=
  match lines.dropWhile (fun l => !isHeadingLine l) with
  | [] => []
  | l :: ls => groupGo [l] ls

/-- Web-variant segmentation (chunker.py lines 327-350), listing chunk
contents in order: with at least one heading, each chunk is the
stripped heading-to-next-heading slice, postprocessed; with no heading,
the content splits on `\n\n` into paragraphs. -/
def segmentWebContents (content : String) : List String :=
  if (pySplitLines content).any isHeadingLine then
    (headingGroups (pySplitLines content)).filterMap (fun g =>
      let cc := pyStrip (joinLines g)
      if cc == ("") then none else some (postprocess_markdown cc Mode.web))
  else
    (pySplitOn content ("\n\n")).filterMap (fun p =>
      let s := pyStrip p
      if s == ("") then none else some (postprocess_markdown s Mode.web))

structure Metadata where
  source_url : Option String := none
  title : Option String := none
  author : Option String := none
  date : Option String := none
  tags : List String := []
deriving DecidableEq

/-- One PDF-extracted line (built in extract.py line 445): text with
font size, vertical position and page number.  Font sizes are modeled as
rationals; the percentile threshold `min_heading_font` computed from
them in `chunk_pdf_by_headings` is never read by the heading classifier
(dead after its computation), so it is not reproduced. -/
structure LineRecord where
  text : String
  size : Option Rat := none
  y : Option Rat := none
  page : Nat := 0
deriving DecidableEq

inductive DocContent
  | text (s : String)
  | records (l : List LineRecord)
deriving DecidableEq

structure Document where
  content : DocContent
  metadata : Option Metadata := none
  source_url : Option String := none
  title : Option String := none
  author : Option String := none
  date : Option String := none
  tags : List String := []
deriving DecidableEq

/-- Chunk record (id, source, content, metadata).  Chunk ids (uuid4 in
the source) are modeled as creation-order indices, preserving their only
used property, per-run freshness. -/
structure Chunk where
  id : Nat
  source : Option String
  content : String
  metadata : Metadata
deriving DecidableEq

/-- chunker.py lines 196-214: rejoin a wrapped line pair when the first
strips to an alphanumeric ending and the next strips to a lowercase or
digit start, then drop blank lines. -/
def sjGo : List String → List String
  | [] => []
  | [l] => [l]
  | l :: next :: rest =>
    if (match (pyStripL l.data).getLast? with
        | some c => isAsciiAlpha c || isAsciiDigit c
        | none => false)
        && (match pyStripL next.data with
            | c :: _ => isAsciiLower c || isAsciiDigit c
            | [] => false) then
      (pyRStrip l ++ (" ") ++ pyLStrip next) :: sjGo rest
    else l :: sjGo (next :: rest)

def smart_join_pdf_lines (text : String) : String :=
  joinLines ((sjGo (pySplitLines text)).filter (fun l => !(pyStrip l == (""))))

/-- chunker.py lines 129-139: every garbage pattern is commented out in
the source, so the `any` over the empty pattern list is false. -/
def is_garbage_line (_text : String) : Bool := false

/-- Classic pattern prefix `lit` + `\s*` + a digit (case-insensitive). -/
def litWsDigits (lit : List Char) (l : List Char) : Bool :=
  hasPreCI lit l &&
    (match (l.drop lit.length).dropWhile isPyWs with
     | c :: _ => isAsciiDigit c
     | [] => false)

/-- Pattern `^\d+\.\s+`. -/
def digitsDotWs (l : List Char) : Bool :=
  let ds := l.takeWhile isAsciiDigit
  ds ≠ [] &&
    (match l.drop ds.length with
     | '.' :: rest => (match rest with | c :: _ => isPyWs c | [] => false)
     | _ => false)

/-- Pattern `^\d+\s+`. -/
def digitsWs (l : List Char) : Bool :=
  let ds := l.takeWhile isAsciiDigit
  ds ≠ [] && (match l.drop ds.length with | c :: _ => isPyWs c | [] => false)

/-- Pattern `^\d+\.\d+`. -/
def digitsDotDigits (l : List Char) : Bool :=
  let ds := l.takeWhile isAsciiDigit
  ds ≠ [] &&
    (match l.drop ds.length with
     | '.' :: c :: _ => isAsciiDigit c
     | _ => false)

/-- chunker.py lines 242-249. -/
def is_allcaps_heading (text : String) : Bool :=
  let words := splitWsGo text.data []
  if words.length < 2 then false
  else
    let joined := words.flatten
    pyIsUpperL joined && joined.any isAsciiAlpha

/-- Heading test of the PDF segmenter loop (chunker.py lines 233-266). -/
def isPdfHeading (text : String) : Bool :=
  litWsDigits (("chapter").data) text.data ||
  litWsDigits (("section").data) text.data ||
  litWsDigits (("part").data) text.data ||
  litWsDigits (("ch").data) text.data ||
  digitsDotWs text.data || digitsWs text.data || digitsDotDigits text.data ||
  is_allcaps_heading text

/-- Flush of a pending PDF section (chunker.py lines 268-277, 282-291):
emitted only when body lines and a title are both present and the
joined body strips non-empty. -/
def pdfFlush (title : Option String) (cur : List String) : List (String × String) :=
  match title with
  | none => []
  | some t =>
    if cur = [] then []
    else
      let ct := pyStrip (joinLines cur)
      if ct == ("") then [] else [(t, ct)]

/-- Main loop of the PDF segmenter (chunker.py lines 251-291): titled
(title, body) pairs in order. -/
def pdfGo : List LineRecord → Option String → List String → List (String × String)
  | [], title, cur => pdfFlush title cur
  | r :: rs, title, cur =>
    let text := pyStrip r.text
    if text == ("") || is_garbage_line text then pdfGo rs title cur
    else if isPdfHeading text then pdfFlush title cur ++ pdfGo rs (some text) []
    else pdfGo rs title (cur ++ [text])

/-- In-place smart join of a multi-line record text
(chunker.py line 222). -/
def updateRecText (r : LineRecord) : LineRecord :=
  if r.text.data.contains '\n' then { r with text := smart_join_pdf_lines r.text } else r

def appendToLastChunk : List Chunk → String → List Chunk
  | [], _ => []
  | [c], s => [{ c with content := c.content ++ ("\n\n") ++ s }]
  | c :: c2 :: cs, s => c :: appendToLastChunk (c2 :: cs) s

/-- Merger pass (chunker.py lines 301-308): any chunk beyond the first
whose content is under 300 characters is appended, blank-line joined,
onto the previously emitted chunk, which keeps its id, source and
metadata. -/
def mergeGo : List Chunk → List Chunk → List Chunk
  | acc, [] => acc
  | acc, c :: cs =>
    if acc ≠ [] ∧ c.content.length < 300 then
      mergeGo (appendToLastChunk acc c.content) cs
    else mergeGo (acc ++ [c]) cs

def merge_small_chunks (chunks : List Chunk) : List Chunk := mergeGo [] chunks

/-- Chunk records from an ordered content list (ids are creation-order
indices; every chunk carries its own copy of the metadata). -/
def mkChunks (metadata : Metadata) (contents : List String) : List Chunk :=
  contents.enum.map (fun p =>
    { id := p.1, source := metadata.source_url, content := p.2, metadata := metadata })

/-- chunker.py lines 216-308. -/
def chunk_pdf_by_headings (lines : List LineRecord) (metadata : Metadata) : List Chunk :=
  let lines := lines.map updateRecText
  let pieces := pdfGo lines none []
  let contents :=
    if pieces = [] then
      [postprocess_markdown
        (joinLines (lines.filterMap (fun r =>
          let s := pyStrip r.text
          if !(s == ("")) && !(is_garbage_line r.text) then some s else none)))
        Mode.pdf]
    else
      pieces.map (fun p => ("## ") ++ p.1 ++ ("\n\n") ++ postprocess_markdown p.2 Mode.pdf)
  merge_small_chunks (mkChunks metadata contents)

/-- Optional tag-extraction capability (chunker.py lines 5-16 and
352-362), injected by value: a spaCy-like per-chunk function, a
TF-IDF-like batch function, or nothing. -/
inductive TagBackend
  | spacy (f : String → List String)
  | tfidf (f : List String → List (List String))
  | absent

def attachTagsZip : List Chunk → List (List String) → List Chunk
  | [], _ => []
  | cs, [] => cs
  | c :: cs, t :: ts =>
    { c with metadata := { c.metadata with tags := t } } :: attachTagsZip cs ts

/-- Tag attachment (chunker.py lines 352-362); the TF-IDF `zip`
truncates like the source loop. -/
def attachTags (backend : TagBackend) (chunks : List Chunk) : List Chunk :=
  match backend with
  | .spacy f =>
    chunks.map (fun c => { c with metadata := { c.metadata with tags := f c.content } })
  | .tfidf f => attachTagsZip chunks (f (chunks.map (fun c => c.content)))
  | .absent => chunks.map (fun c => { c with metadata := { c.metadata with tags := [] } })

/-- chunker.py lines 311-322: `document.get("metadata", {})`, rebuilt
from the flat document fields when the metadata is absent or empty
(both modeled by `none`) and the source url is truthy. -/
def effMetadata (d : Document) : Metadata :=
  match d.metadata with
  | some m => m
  | none =>
    if (match d.source_url with | some s => !(s == ("")) | none => false) then
      { source_url := d.source_url, title := d.title, author := d.author,
        date := d.date, tags := d.tags }
    else {}

/-- chunker.py lines 310-363.  The dispatch sends a non-empty record
list to the PDF segmenter; an empty record list fails the
`isinstance(content, list) and content` guard and falls through to the
string branch, where `finditer` applied to a list raises `TypeError`,
modeled as an error value; a string goes through the web segmenter.
Tags are attached per chunk through the injected backend. -/
def chunk_document (backend : TagBackend) (d : Document) : Except String (List Chunk) :=
  let metadata := effMetadata d
  match d.content with
  | .records (r :: rs) =>
    .ok (attachTags backend (chunk_pdf_by_headings (r :: rs) metadata))
  | .records [] =>
    .error ("TypeError: expected string or bytes-like object")
  | .text s =>
    .ok (attachTags backend (mkChunks metadata (segmentWebContents s)))

/-- Observable state of the input document after `chunk_document`
returns.  The assignment at chunker.py line 222 writes the smart-joined
text in place into every record dict (reachable from the caller) whose
text holds a newline; it is the only statement in the call graph that
writes to input-reachable state — each chunk dict is fresh and each
chunk metadata is an explicit `metadata.copy()`, so the metadata dict
and the flat document fields are untouched. -/
def documentAfterChunking (d : Document) : Document :=
  match d.content with
  | .records l => { d with content := .records (l.map updateRecText) }
  | .text _ => d

/-- Contents of the chunks produced for a document (empty on error). -/
def chunkContents (backend : TagBackend) (d : Document) : List String :=
  match chunk_document backend d with
  | .ok cs => cs.map (fun c => c.content)
  | .error _ => []

/-! ## Claim C4 (chunk merger) -/

theorem str_length_append (a b : String) : (a ++ b).length = a.length + b.length :=
  String.length_append a b

theorem appendToLastChunk_all_ge (s : String) :
    ∀ (l : List Chunk), (∀ c ∈ l, 300 ≤ c.content.length) →
      ∀ c ∈ appendToLastChunk l s, 300 ≤ c.content.length := by
  intro l
  induction l with
  | nil => intro _ c hc; cases hc
  | cons a l ih =>
    intro h c hc
    cases l with
    | nil =>
      simp only [appendToLastChunk, List.mem_singleton] at hc
      subst hc
      have ha := h a (List.mem_cons_self a [])
      simp only [str_length_append]
      omega
    | cons b l2 =>
      simp only [appendToLastChunk, List.mem_cons] at hc
      rcases hc with hc | hc
      · subst hc; exact h c (List.mem_cons_self c (b :: l2))
      · exact ih (fun x hx => h x (List.mem_cons_of_mem a hx)) c hc

theorem appendToLastChunk_tail_inv (s : String) :
    ∀ (acc : List Chunk), (∀ c ∈ acc.tail, 300 ≤ c.content.length) →
      ∀ c ∈ (appendToLastChunk acc s).tail, 300 ≤ c.content.length := by
  intro acc
  match acc with
  | [] => intro _ c hc; cases hc
  | [a] => intro _ c hc; simp [appendToLastChunk] at hc
  | a :: b :: l =>
    intro h c hc
    simp only [appendToLastChunk, List.tail_cons] at hc
    exact appendToLastChunk_all_ge s (b :: l) (by simpa using h) c hc

theorem mergeGo_tail_inv :
    ∀ (rest acc : List Chunk),
      (∀ c ∈ acc.tail, 300 ≤ c.content.length) →
      ∀ c ∈ (mergeGo acc rest).tail, 300 ≤ c.content.length := by
  intro rest
  induction rest with
  | nil => intro acc h; simpa [mergeGo] using h
  | cons c cs ih =>
    intro acc h
    by_cases hc : acc ≠ [] ∧ c.content.length < 300
    · simp only [mergeGo, if_pos hc]
      exact ih _ (appendToLastChunk_tail_inv c.content acc h)
    · simp only [mergeGo, if_neg hc]
      apply ih
      intro x hx
      cases acc with
      | nil => simp at hx
      | cons a as =>
        simp only [List.cons_append, List.tail_cons] at hx
        rcases List.mem_append.mp hx with h1 | h2
        · exact h x h1
        · rw [List.mem_singleton.mp h2]
          rcases not_and_or.mp hc with h3 | h3
          · exact absurd (List.cons_ne_nil a as) (not_not.mpr (not_not.mp h3))
          · omega

/-- Claim C4, amended: the under-300 merger runs only in the PDF
variant of segmentation (chunker.py lines 301-308); for any chunk list
it guarantees that every emitted chunk beyond the first has content of
at least 300 characters — an undersized chunk is appended, blank-line
joined, onto the previously emitted chunk, which keeps its id, source
and metadata, and order is otherwise preserved.  The web variant of
`chunk_document` never runs this pass (see the counterexample). -/
theorem C4_pdf_merge_size_invariant (chunks : List Chunk) :
    ∀ c ∈ (merge_small_chunks chunks).tail, 300 ≤ c.content.length :=
  mergeGo_tail_inv chunks [] (fun c hc => absurd hc (List.not_mem_nil c))

def chunkA : Chunk :=
  { id := 0, source := none, content := ⟨List.replicate 300 'a'⟩, metadata := {} }

def chunkB : Chunk :=
  { id := 1, source := none, content := ⟨List.replicate 300 'b'⟩, metadata := {} }

set_option maxRecDepth 8192 in
/-- Witness for C4 on a concrete chunk list. -/
theorem C4_pdf_merge_size_invariant_witness :
    chunkB ∈ (merge_small_chunks [chunkA, chunkB]).tail ∧
    300 ≤ chunkB.content.length :=
  ⟨by decide, C4_pdf_merge_size_invariant [chunkA, chunkB] chunkB (by decide)⟩

def webShortDoc : Document := { content := DocContent.text ("# One\nhello\n\n# Two\nworld") }

/-- Claim C4, counterexample: a web document for which `chunk_document`
emits two chunks whose second is 19 characters long — far below 300 —
because the web variant has no merger pass at all. -/
theorem C4_web_no_merge_counterexample :
    (chunkContents TagBackend.absent webShortDoc).length = 2 ∧
    ((chunkContents TagBackend.absent webShortDoc).getD 1 ("")).length < 300 :=
  ⟨rfl, by decide⟩

/-! ## Claim C7 (malformed and empty input) -/

def emptyTextDoc : Document := { content := DocContent.text ("") }

def emptyRecordsDoc : Document := { content := DocContent.records [] }

/-- Claim C7 (code bug): the empty content string yields an empty chunk
list without error, but the empty LineRecord sequence fails the
`isinstance(content, list) and content` guard, falls into the string
branch, and `finditer` applied to a list raises `TypeError` — the
segmenter does raise on this malformed input. -/
theorem C7_empty_input_behavior :
    chunk_document TagBackend.absent emptyTextDoc = Except.ok [] ∧
    chunk_document TagBackend.absent emptyRecordsDoc =
      Except.error ("TypeError: expected string or bytes-like object") :=
  ⟨rfl, rfl⟩

/-! ## Claim C9 (input mutation) -/

def mutableRecDoc : Document := { content := DocContent.records [{ text := ("ab\ncd") }] }

/-- Claim C9, counterexample: chunking a PDF document holding one record
whose text contains a newline rewrites that record in place — after the
call the record text is the smart-joined `ab cd`, so the document is
not read-only input. -/
theorem C9_record_mutation_counterexample :
    documentAfterChunking mutableRecDoc ≠ mutableRecDoc := by decide

/-- Claim C9, amended: chunking leaves the document metadata untouched
and mutates nothing for string content; in the PDF variant, exactly the
records whose text contains a newline are rewritten in place to their
smart-joined text (chunker.py line 222) — documents whose record texts
are newline-free are returned bit-identical. -/
theorem C9_mutation_scope (d : Document) :
    (documentAfterChunking d).metadata = d.metadata ∧
    (∀ s, d.content = DocContent.text s → documentAfterChunking d = d) ∧
    (∀ l, d.content = DocContent.records l →
      (∀ r ∈ l, r.text.data.contains '\n' = false) →
      documentAfterChunking d = d) := by
  refine ⟨?_, ?_, ?_⟩
  · unfold documentAfterChunking
    cases hd : d.content <;> rfl
  · intro s hs
    unfold documentAfterChunking
    rw [hs]
  · intro l hl hr
    have hmap : ∀ (l2 : List LineRecord),
        (∀ r ∈ l2, r.text.data.contains '\n' = false) →
        l2.map updateRecText = l2 := by
      intro l2
      induction l2 with
      | nil => intro _; rfl
      | cons r rs ihr =>
        intro h2
        have h3 : updateRecText r = r := by
          unfold updateRecText
          rw [h2 r (List.mem_cons_self r rs)]
          simp
        simp only [List.map_cons, h3, List.cons.injEq, true_and]
        exact ihr (fun x hx => h2 x (List.mem_cons_of_mem r hx))
    obtain ⟨ct, dmd, dsu, dti, dau, dda, dtg⟩ := d
    simp only at hl
    subst hl
    simp [documentAfterChunking, hmap l hr]

def pdfCleanDoc : Document := { content := DocContent.records [{ text := ("hello") }] }

/-- Witness for C9 on a concrete newline-free PDF document. -/
theorem C9_mutation_scope_witness :
    (documentAfterChunking pdfCleanDoc).metadata = pdfCleanDoc.metadata ∧
    documentAfterChunking pdfCleanDoc = pdfCleanDoc :=
  ⟨(C9_mutation_scope pdfCleanDoc).1,
   (C9_mutation_scope pdfCleanDoc).2.2 [{ text := ("hello") }] rfl (by decide)⟩

/-! ## Line split/join lemmas for claims C8 and C10 -/

theorem splitOnNl_ne_nil : ∀ (l : List Char), splitOnNl l ≠ [] := by
  intro l
  cases l with
  | nil => simp [splitOnNl]
  | cons c cs =>
    simp only [splitOnNl]
    by_cases hc : c = '\n'
    · simp [hc]
    · rw [if_neg hc]
      rcases hs : splitOnNl cs with _ | ⟨p, ps⟩ <;> simp

theorem joinNl_splitOnNl : ∀ (l : List Char), joinNl (splitOnNl l) = l := by
  intro l
  induction l with
  | nil => rfl
  | cons c cs ih =>
    by_cases hc : c = '\n'
    · subst hc
      simp only [splitOnNl, if_pos rfl]
      rcases hs : splitOnNl cs with _ | ⟨p, ps⟩
      · exact absurd hs (splitOnNl_ne_nil cs)
      · rw [hs] at ih
        simp [joinNl, ih]
    · simp only [splitOnNl, if_neg hc]
      rcases hs : splitOnNl cs with _ | ⟨p, ps⟩
      · exact absurd hs (splitOnNl_ne_nil cs)
      · rw [hs] at ih
        cases ps with
        | nil => simpa [joinNl] using ih
        | cons q qs =>
          simp only [joinNl] at ih ⊢
          simp [ih]

theorem splitOnNl_last_empty_imp :
    ∀ (l : List Char), (splitOnNl l).getLast? = some [] →
      l = [] ∨ l.getLast? = some '\n' := by
  intro l
  induction l with
  | nil => intro _; exact Or.inl rfl
  | cons c cs ih =>
    intro h
    simp only [splitOnNl] at h
    by_cases hc : c = '\n'
    · rw [if_pos hc] at h
      rcases hs : splitOnNl cs with _ | ⟨p, ps⟩
      · exact absurd hs (splitOnNl_ne_nil cs)
      · rw [hs, List.getLast?_cons_cons, ← hs] at h
        rcases ih h with h1 | h1
        · subst h1
          exact Or.inr (by simp [hc])
        · right
          cases cs with
          | nil => simp at h1
          | cons d ds => rw [List.getLast?_cons_cons]; exact h1
    · rw [if_neg hc] at h
      rcases hs : splitOnNl cs with _ | ⟨p, ps⟩
      · exact absurd hs (splitOnNl_ne_nil cs)
      · rw [hs] at h
        cases ps with
        | nil => simp at h
        | cons q qs =>
          rw [List.getLast?_cons_cons] at h
          have h2 : (splitOnNl cs).getLast? = some [] := by
            rw [hs, List.getLast?_cons_cons]; exact h
          rcases ih h2 with h1 | h1
          · subst h1
            simp [splitOnNl] at hs
          · right
            cases cs with
            | nil => simp at h1
            | cons d ds => rw [List.getLast?_cons_cons]; exact h1

theorem head_dropWhile_not {α : Type} (p : α → Bool) :
    ∀ (l : List α) (c : α), (l.dropWhile p).head? = some c → p c = false := by
  intro l
  induction l with
  | nil => intro c h; cases h
  | cons a l ih =>
    intro c h
    by_cases ha : p a = true
    · rw [List.dropWhile_cons, if_pos ha] at h
      exact ih c h
    · rw [List.dropWhile_cons, if_neg ha] at h
      simp only [List.head?_cons, Option.some.injEq] at h
      subst h
      simpa using ha

theorem pyRStripL_last_not_ws (x : List Char) (c : Char)
    (h : (pyRStripL x).getLast? = some c) : isPyWs c = false := by
  unfold pyRStripL at h
  rw [List.getLast?_reverse] at h
  exact head_dropWhile_not isPyWs _ c h

theorem stripped_no_trailing_nl (s : String) (h1 : pyStrip s = s) :
    s.data.getLast? = some '\n' → False := by
  intro h2
  have hd : pyRStripL (pyLStripL s.data) = s.data := congrArg String.data h1
  have h3 := pyRStripL_last_not_ws (pyLStripL s.data) '\n' (by rw [hd]; exact h2)
  exact absurd h3 (by decide)

theorem joinLines_pySplitLines (s : String) (h1 : pyStrip s = s) (h2 : s ≠ ("")) :
    joinLines (pySplitLines s) = s := by
  have hdata : s.data ≠ [] := by
    intro hd
    exact h2 (String.ext (by simpa using hd))
  have hlast : ¬ ((splitOnNl s.data).getLast? = some []) := by
    intro hl
    rcases splitOnNl_last_empty_imp s.data hl with h3 | h3
    · exact hdata h3
    · exact stripped_no_trailing_nl s h1 h3
  unfold joinLines pySplitLines pySplitLinesL
  simp only [hlast, if_neg, if_false]
  rw [List.map_map]
  have hid : (String.data ∘ fun l => (⟨l⟩ : String)) = id := rfl
  rw [hid, List.map_id]
  exact String.ext (by simp [joinNl_splitOnNl])

theorem groupGo_no_more_headings :
    ∀ (ls : List String) (cur : List String),
      ls.all (fun x => !isHeadingLine x) = true →
      groupGo cur ls = [cur.reverse ++ ls] := by
  intro ls
  induction ls with
  | nil => intro cur _; simp [groupGo]
  | cons l ls ih =>
    intro cur h
    simp only [List.all_cons, Bool.and_eq_true, Bool.not_eq_true'] at h
    simp only [groupGo, h.1, Bool.false_eq_true, if_neg, if_false]
    rw [ih (l :: cur) (by simpa using h.2)]
    simp

/-- Claim C8, amended: re-segmenting an emitted chunk is not idempotent
in general — postprocessing rewrites chunks and can even create new
heading lines (see the counterexample).  The claimed round trip holds
exactly on heading-led postprocessing fixed points: a non-empty stripped
content whose first line is its only heading line and which
`postprocess_markdown` leaves unchanged is returned by the web segmenter
as the single chunk, byte for byte. -/
theorem C8_fixed_point_resegmentation (c l : String) (ls : List String)
    (hsplit : pySplitLines c = l :: ls)
    (hhead : isHeadingLine l = true)
    (hrest : ls.all (fun x => !isHeadingLine x) = true)
    (hstrip : pyStrip c = c)
    (hne : c ≠ (""))
    (hfix : postprocess_markdown c Mode.web = c) :
    segmentWebContents c = [c] := by
  have hany : (pySplitLines c).any isHeadingLine = true := by
    rw [hsplit]; simp [hhead]
  have hgroups : headingGroups (pySplitLines c) = [l :: ls] := by
    unfold headingGroups
    rw [hsplit, List.dropWhile_cons]
    simp only [hhead, Bool.not_true, Bool.false_eq_true, if_neg, if_false]
    rw [groupGo_no_more_headings ls [l] hrest]
    rfl
  have hjoin : joinLines (l :: ls) = c := by
    rw [← hsplit]; exact joinLines_pySplitLines c hstrip hne
  have hbeq : (pyStrip (joinLines (l :: ls)) == ("")) = false := by
    rw [hjoin, hstrip]
    exact beq_eq_false_iff_ne.mpr hne
  unfold segmentWebContents
  rw [if_pos hany, hgroups]
  simp only [List.filterMap_cons, List.filterMap_nil, hbeq, Bool.false_eq_true,
    if_neg, if_false]
  rw [hjoin, hstrip, hfix]

/-- Witness for C8 on a concrete fixed-point chunk content. -/
theorem C8_fixed_point_resegmentation_witness :
    isHeadingLine ("# Search tips") = true ∧
    postprocess_markdown ("# Search tips") Mode.web = ("# Search tips") ∧
    segmentWebContents ("# Search tips") = [("# Search tips")] :=
  ⟨rfl, rfl,
   C8_fixed_point_resegmentation ("# Search tips") ("# Search tips") [] rfl rfl rfl rfl
     (by decide) rfl⟩

/-- Claim C8, counterexample: the web segmenter emits exactly one chunk
for the document below; re-running it on that chunk content yields two
chunks, neither equal to it — postprocessing fence-wrapped the heading
and the stripped skip-listed line `# search x` became a new heading. -/
theorem C8_resegmentation_counterexample :
    segmentWebContents ("# A\nhello\n # search x") =
      [("```\n# A\n```\nhello\n# search x")] ∧
    segmentWebContents ("```\n# A\n```\nhello\n# search x") =
      [("```\n# A\n```\n```\nhello\n```"), ("# search x")] ∧
    segmentWebContents ("```\n# A\n```\nhello\n# search x") ≠
      [("```\n# A\n```\nhello\n# search x")] :=
  ⟨rfl, rfl, by decide⟩

theorem splitOnNl_append_nl :
    ∀ (x y : List Char), splitOnNl (x ++ '\n' :: y) = splitOnNl x ++ splitOnNl y := by
  intro x
  induction x with
  | nil => intro y; simp [splitOnNl]
  | cons c x ih =>
    intro y
    by_cases hc : c = '\n'
    · subst hc
      show splitOnNl ('\n' :: (x ++ '\n' :: y)) = splitOnNl ('\n' :: x) ++ splitOnNl y
      rw [show splitOnNl ('\n' :: (x ++ '\n' :: y)) = [] :: splitOnNl (x ++ '\n' :: y) from by
            simp [splitOnNl],
          show splitOnNl ('\n' :: x) = [] :: splitOnNl x from by simp [splitOnNl], ih]
      rfl
    · show splitOnNl (c :: (x ++ '\n' :: y)) = splitOnNl (c :: x) ++ splitOnNl y
      rcases hs : splitOnNl x with _ | ⟨p, ps⟩
      · exact absurd hs (splitOnNl_ne_nil x)
      · have h1 : splitOnNl (c :: x) = (c :: p) :: ps := by
          simp only [splitOnNl, if_neg hc, hs]
        have h2 : splitOnNl (x ++ '\n' :: y) = p :: (ps ++ splitOnNl y) := by
          rw [ih, hs]; rfl
        have h3 : splitOnNl (c :: (x ++ '\n' :: y)) = (c :: p) :: (ps ++ splitOnNl y) := by
          simp only [splitOnNl, if_neg hc, h2]
        rw [h3, h1]
        rfl

theorem pySplitLinesL_append_nl :
    ∀ (x y : List Char),
      pySplitLinesL ((x ++ ['\n']) ++ y) = pySplitLinesL (x ++ ['\n']) ++ pySplitLinesL y := by
  intro x y
  have h1 : (x ++ ['\n']) ++ y = x ++ '\n' :: y := by simp
  have h2 : splitOnNl (x ++ ['\n']) = splitOnNl x ++ [[]] := by
    have h3 := splitOnNl_append_nl x []
    simpa [splitOnNl] using h3
  unfold pySplitLinesL
  rw [h1, splitOnNl_append_nl, h2]
  have hx : ((splitOnNl x ++ [[]] : List (List Char)).getLast? = some []) := by simp
  rw [if_pos hx]
  have hxd : (splitOnNl x ++ ([[]] : List (List Char))).dropLast = splitOnNl x := by simp
  rw [hxd]
  by_cases hy : (splitOnNl y).getLast? = some []
  · have hya : ((splitOnNl x ++ splitOnNl y).getLast? = some []) := by
      rw [List.getLast?_append_of_ne_nil (splitOnNl x) (splitOnNl_ne_nil y)]
      exact hy
    rw [if_pos hya, if_pos hy]
    exact List.dropLast_append_of_ne_nil (splitOnNl x) (splitOnNl_ne_nil y)
  · have hya : ¬ ((splitOnNl x ++ splitOnNl y).getLast? = some []) := by
      rw [List.getLast?_append_of_ne_nil (splitOnNl x) (splitOnNl_ne_nil y)]
      exact hy
    rw [if_neg hya, if_neg hy]

theorem pySplitLines_append (p h : String)
    (hpe : p = ("") ∨ p.data.getLast? = some '\n') :
    pySplitLines (p ++ h) = pySplitLines p ++ pySplitLines h := by
  rcases hpe with hpe | hpe
  · subst hpe
    have h0 : ("") ++ h = h := by
      exact String.ext (by simp [String.data_append])
    rw [h0]
    rfl
  · have hsplit : p.data.dropLast ++ ['\n'] = p.data :=
      List.dropLast_append_getLast? '\n' hpe
    have hd : (p ++ h).data = (p.data.dropLast ++ ['\n']) ++ h.data := by
      rw [String.data_append, hsplit]
    unfold pySplitLines
    rw [hd, pySplitLinesL_append_nl, List.map_append, hsplit]

theorem dropWhile_append_all {α : Type} (pr : α → Bool) :
    ∀ (l1 l2 : List α), (∀ x ∈ l1, pr x = true) →
      (l1 ++ l2).dropWhile pr = l2.dropWhile pr := by
  intro l1
  induction l1 with
  | nil => intro l2 _; rfl
  | cons a l1 ih =>
    intro l2 hall
    rw [List.cons_append, List.dropWhile_cons, if_pos (hall a (List.mem_cons_self a l1))]
    exact ih l2 (fun x hx => hall x (List.mem_cons_of_mem a hx))

/-- Claim C10: in the web variant, a heading-free prefix ending at a
line boundary is invisible to segmentation — when the content contains
a heading, every emitted chunk is computed from the content at and
after the first heading line, so everything before it is silently
dropped, exactly as in the PDF variant. -/
theorem C10_pre_heading_content_dropped (p h lh : String)
    (hp : (pySplitLines p).all (fun l => !isHeadingLine l) = true)
    (hpe : p = ("") ∨ p.data.getLast? = some '\n')
    (hh : (pySplitLines h).head? = some lh)
    (hlh : isHeadingLine lh = true) :
    segmentWebContents (p ++ h) = segmentWebContents h := by
  obtain ⟨ls, hls⟩ : ∃ ls, pySplitLines h = lh :: ls := by
    rcases hhs : pySplitLines h with _ | ⟨a, as⟩
    · rw [hhs] at hh; cases hh
    · rw [hhs] at hh
      simp only [List.head?_cons, Option.some.injEq] at hh
      exact ⟨as, by rw [hh]⟩
  have happ := pySplitLines_append p h hpe
  have hallp : ∀ x ∈ pySplitLines p, (fun l => !isHeadingLine l) x = true := by
    intro x hx
    exact List.all_eq_true.mp hp x hx
  have hdropH : (pySplitLines h).dropWhile (fun l => !isHeadingLine l) = lh :: ls := by
    rw [hls, List.dropWhile_cons]
    simp [hlh]
  have hgroups : headingGroups (pySplitLines (p ++ h)) = headingGroups (pySplitLines h) := by
    unfold headingGroups
    rw [happ, dropWhile_append_all _ _ _ hallp]
  have hanyH : (pySplitLines h).any isHeadingLine = true := by
    simp [hls, List.any_cons, hlh]
  have hanyPH : (pySplitLines (p ++ h)).any isHeadingLine = true := by
    rw [happ, List.any_append, hanyH]
    simp
  unfold segmentWebContents
  rw [if_pos hanyPH, if_pos hanyH, hgroups]

/-- Witness for C10 on a concrete prefixed document. -/
theorem C10_pre_heading_content_dropped_witness :
    (pySplitLines ("intro\n")).all (fun l => !isHeadingLine l) = true ∧
    segmentWebContents (("intro\n") ++ ("# Ti x")) = segmentWebContents ("# Ti x") :=
  ⟨rfl,
   C10_pre_heading_content_dropped ("intro\n") ("# Ti x") ("# Ti x") rfl
     (Or.inr rfl) rfl rfl⟩
